import Mathlib

/-!
# Verification of the QuadcastRGB device-I/O core (`src/modules/devio.c`)

This file is a shallow embedding of the device-I/O core of QuadcastRGB:
the packet codec (`header_packet`, the data-packet construction inside
`display_data_arr`), the device matcher (`is_compatible_mic`), the fatal
exit paths of `open_micro`, the streaming loop of `send_packets`, and the
reconnection loop it contains.

External effects (libusb control transfers, the volatile `nonstop` flag
written by the signal handler, and `attempt_reconnect`'s success) are
modelled as oracles: three infinite streams consumed at increasing
indices, with a counter state `St` recording how many values each stream
has yielded so far.  Every observable action of the C code (reads of
`nonstop`, control transfers together with the exact 64-byte payload,
`usleep` pauses, `libusb_release_interface` / `libusb_close` calls, and
calls to `attempt_reconnect`) is recorded as an event, so theorems are
stated over the event trace of a run.  Unbounded `while` loops are given
a fuel argument; running out of fuel is a distinguished outcome
(`fuelOut`) meaning "the run was cut short by the model", never reached
by the C code itself.
-/

set_option maxRecDepth 10000

abbrev Byte := Nat

/-- `PACKET_SIZE` from devio.c line 40: every frame is 64 bytes. -/
def PACKET_SIZE : Nat := 64

/-- `HEADER_CODE` from devio.c line 42. -/
def HEADER_CODE : Byte := 0x04

/-- `DISPLAY_CODE` from devio.c line 43. -/
def DISPLAY_CODE : Byte := 0xf2

/-- `PACKET_CNT` from devio.c line 44. -/
def PACKET_CNT : Byte := 0x01

/-- The 32 initializer entries of `header_packet` in `display_data_arr`
(devio.c lines 431-434): `HEADER_CODE, DISPLAY_CODE, 0 ×6, PACKET_CNT, 0 ×23`. -/
def header_init : List Byte :=
  [HEADER_CODE, DISPLAY_CODE, 0, 0, 0, 0, 0, 0, PACKET_CNT, 0, 0, 0,
   0, 0, 0, 0, 0, 0, 0, 0, 0, 0, 0, 0, 0, 0, 0, 0, 0, 0, 0, 0]

/-- The full 64-byte header packet: the C array `byte_t header_packet[PACKET_SIZE]`
has 32 listed initializer entries and, per C initialization semantics, the
remaining elements are zero. -/
def header_packet : List Byte :=
  header_init ++ List.replicate (PACKET_SIZE - header_init.length) 0

/-- The data packet built at stream position `pos` in `display_data_arr`:
`packet` is a `calloc`ed (all-zero) 64-byte buffer whose first `2*BYTE_STEP`
bytes are overwritten by `memcpy(packet, colcommand, 2*BYTE_STEP)`; the
remaining bytes stay zero (each iteration rewrites the same prefix region
of the shared buffer).  `k` stands for `BYTE_STEP`. -/
def mkDataPacket (k : Nat) (stream : List Byte) (pos : Nat) : List Byte :=
  (stream.drop pos).take (2 * k) ++ List.replicate (PACKET_SIZE - 2 * k) 0

/- ### Device matcher (devio.c lines 100-112 and 295-334) -/

/-- `DEV_VID_KINGSTON` (devio.c line 100). -/
def DEV_VID_KINGSTON : Nat := 0x0951

/-- `DEV_VID_HP` (devio.c line 101). -/
def DEV_VID_HP : Nat := 0x03f0

/-- `product_ids_kingston` (devio.c lines 103-105). -/
def product_ids_kingston : List Nat := [0x171f]

/-- `product_ids_hp` (devio.c lines 106-112). -/
def product_ids_hp : List Nat := [0x0f8b, 0x028c, 0x048c, 0x068c, 0x098c]

/-- `is_compatible_mic` (devio.c lines 295-334).  The argument is the result
of `libusb_get_device_descriptor`: `none` when the descriptor cannot be read
(`ret < 0`, which makes the function return 0), otherwise
`some (idVendor, idProduct)`.  The vendor branch selects the product-id
array, and the `for` loop is a linear membership scan. -/
def is_compatible_mic (d : Option (Nat × Nat)) : Bool :=
  match d with
  | none => false
  | some (vid, pid) =>
    if vid = DEV_VID_KINGSTON then product_ids_kingston.contains pid
    else if vid = DEV_VID_HP then product_ids_hp.contains pid
    else false

/-- The identity table of spec section 6: all (vendor, product) pairs the
program supports. -/
def identity_table : List (Nat × Nat) :=
  [(0x0951, 0x171f),
   (0x03f0, 0x0f8b), (0x03f0, 0x028c), (0x03f0, 0x048c),
   (0x03f0, 0x068c), (0x03f0, 0x098c)]

/- ### Fatal exit paths of `open_micro` (devio.c lines 70-97, 140-276) -/

/-- The error-code enum of devio.c lines 70-75. -/
def libusberr : Nat := 2

/-- `nodeverr` from the enum (devio.c line 72); declared but never passed
to `exit` anywhere in the file. -/
def nodeverr : Nat := 3

/-- `devopenerr` from the enum (devio.c line 73); declared but never passed
to `exit` anywhere in the file. -/
def devopenerr : Nat := 4

/-- `transfererr` from the enum (devio.c line 74); used only by the
`HANDLE_TRANSFER_ERR` macro, which is itself never invoked. -/
def transfererr : Nat := 5

/-- The fatal conditions of `open_micro` and `claim_dev_interface`. -/
inductive FatalCond where
  /-- `libusb_init` returned nonzero (devio.c lines 149-153). -/
  | initFail
  /-- `libusb_get_device_list` still failed on the third attempt
  (devio.c lines 170-177). -/
  | devListFail
  /-- no compatible device after the three enumeration attempts
  (devio.c line 194). -/
  | noDevFound
  /-- `libusb_open` still failed after the three attempts
  (devio.c lines 217-220). -/
  | openFail
  /-- `claim_dev_interface` failed with `LIBUSB_ERROR_BUSY`
  (devio.c lines 261-263, then lines 221-224). -/
  | claimBusy
  /-- `claim_dev_interface` failed with `LIBUSB_ERROR_NO_DEVICE`
  (devio.c lines 264-267, then lines 221-224). -/
  | claimGone
  /-- `claim_dev_interface` failed with any other error
  (devio.c lines 270-275, then lines 221-224). -/
  | claimOther
deriving DecidableEq, Repr

/-- The messages the program can print on a fatal path (devio.c lines 56-68),
plus the two libusb-supplied strings. -/
inductive CMsg where
  | devlistErr | nodevErr | openErr | busyErr
  | libusbInitPerror | libusbStrerror
deriving DecidableEq, Repr

/-- The process exit code of each fatal condition.  Every branch of
`open_micro` reaches `exit` through either `free(data_arr); exit(libusberr)`
(line 152) or the `FREE_AND_EXIT()` macro (lines 78-82), which always calls
`exit(libusberr)`; the enum values `nodeverr` and `devopenerr` are never
used. -/
def exit_code : FatalCond → Nat
  | .initFail => libusberr      -- line 152: exit(libusberr)
  | .devListFail => libusberr   -- line 176: FREE_AND_EXIT()
  | .noDevFound => libusberr    -- line 194: HANDLE_ERR -> FREE_AND_EXIT()
  | .openFail => libusberr      -- line 219: FREE_AND_EXIT()
  | .claimBusy => libusberr     -- line 223: FREE_AND_EXIT()
  | .claimGone => libusberr     -- line 223: FREE_AND_EXIT()
  | .claimOther => libusberr    -- line 223: FREE_AND_EXIT()

/-- The stderr output produced on each fatal path, in order.  Note that the
`claimOther` branch of `claim_dev_interface` (lines 270-275) prints nothing
in a non-DEBUG build: the only output there is inside `#ifdef DEBUG`. -/
def fatal_msgs : FatalCond → List CMsg
  | .initFail => [.libusbInitPerror]          -- perror("libusb_init")
  | .devListFail => [.devlistErr]             -- DEVLIST_ERR_MSG
  | .noDevFound => [.nodevErr]                -- NODEV_ERR_MSG
  | .openFail => [.libusbStrerror, .openErr]  -- strerror then OPEN_ERR_MSG
  | .claimBusy => [.busyErr]                  -- BUSY_ERR_MSG
  | .claimGone => [.openErr]                  -- OPEN_ERR_MSG
  | .claimOther => []                         -- silent outside DEBUG

/- ### The streaming loop of `send_packets` (devio.c lines 338-398, 426-471) -/

/-- The environment of a run: three oracle streams, consumed at increasing
indices.  `xfer i` is the byte count returned by the `i`-th
`libusb_control_transfer`; `stop i` is the value of the volatile `nonstop`
flag at its `i`-th read; `recon i` tells whether the `i`-th call of
`attempt_reconnect` returns a handle. -/
structure Oracle where
  xfer : Nat → Int
  stop : Nat → Bool
  recon : Nat → Bool

/-- Oracle-consumption counters of a run: how many transfer results, flag
reads and reconnect attempts have been consumed so far. -/
structure St where
  xi : Nat
  si : Nat
  ri : Nat
deriving DecidableEq, Repr

/-- One observable action of the streaming loop. -/
inductive Ev where
  /-- a read of the volatile `nonstop` flag, with the value read -/
  | stopRead : Bool → Ev
  /-- a control transfer of a header frame (`send_display_command`) -/
  | xferHeader : List Byte → Ev
  /-- a control transfer of the data frame built at a stream position -/
  | xferData : Nat → List Byte → Ev
  /-- a `usleep` pause, in milliseconds -/
  | sleepMs : Nat → Ev
  /-- `libusb_release_interface(handle, n)` -/
  | releaseIface : Nat → Ev
  /-- `libusb_close(handle)` -/
  | closeHandle : Ev
  /-- a call of `attempt_reconnect`, with its outcome -/
  | reconAttempt : Bool → Ev
deriving DecidableEq, Repr

/-- Outcome of `display_data_arr`: `ok` is C return value 0, `err` is -1. -/
inductive DRes | ok | err | fuelOut
deriving DecidableEq, Repr

/-- Outcome of the inner reconnection `while` loop of `send_packets`. -/
inductive RRes | done | fuelOut
deriving DecidableEq, Repr

/-- Outcome of `send_packets`. -/
inductive SRes | finished | fuelOut
deriving DecidableEq, Repr

/-- `display_data_arr` (devio.c lines 426-457).  `k` is `BYTE_STEP`;
`stream` is the color-byte array starting at `colcommand`'s initial value
`*data_arr`; `endPos` is the offset of `end`; `pos` is the offset of the
running `colcommand`.  Per iteration: the `while` condition first compares
`colcommand < end` and only then (short-circuit) reads `nonstop`; then the
header frame is transferred, then the data frame, each failing the pass
(`return -1`) when the transferred count differs from `PACKET_SIZE`; after
a successful data frame `colcommand` advances by `2*BYTE_STEP` and the
20 ms pacing `usleep` runs.  `fuel` bounds the number of iterations the
model unrolls. -/
def display_data_arr (k : Nat) (o : Oracle) (stream : List Byte) (endPos : Nat) :
    Nat → Nat → St → DRes × St × List Ev
  | 0, _, s => (DRes.fuelOut, s, [])
  | fuel + 1, pos, s =>
    if pos < endPos then
      let b := o.stop s.si
      let s1 : St := ⟨s.xi, s.si + 1, s.ri⟩
      if b then
        let r1 := o.xfer s1.xi
        let s2 : St := ⟨s1.xi + 1, s1.si, s1.ri⟩
        if r1 = (PACKET_SIZE : Int) then
          let r2 := o.xfer s2.xi
          let s3 : St := ⟨s2.xi + 1, s2.si, s2.ri⟩
          if r2 = (PACKET_SIZE : Int) then
            let rest := display_data_arr k o stream endPos fuel (pos + 2 * k) s3
            (rest.1, rest.2.1,
              Ev.stopRead true :: Ev.xferHeader header_packet ::
                Ev.xferData pos (mkDataPacket k stream pos) ::
                  Ev.sleepMs 20 :: rest.2.2)
          else
            (DRes.err, s3,
              [Ev.stopRead true, Ev.xferHeader header_packet,
               Ev.xferData pos (mkDataPacket k stream pos)])
        else (DRes.err, s2, [Ev.stopRead true, Ev.xferHeader header_packet])
      else (DRes.ok, s1, [Ev.stopRead false])
    else (DRes.ok, s, [])

/-- The inner reconnection `while` loop of `send_packets`
(devio.c lines 373-388): `while(nonstop && current_handle == NULL)`
reads `nonstop` first (short-circuit), calls `attempt_reconnect`, and on
failure sleeps 2 seconds before the next attempt.  `conn` mirrors
`current_handle != NULL`; the loop is entered with `conn = false` and, on
success, re-evaluates the condition once more (one extra `nonstop` read)
before leaving. -/
def reconnect_loop (o : Oracle) : Nat → Bool → St → RRes × Bool × St × List Ev
  | 0, conn, s => (RRes.fuelOut, conn, s, [])
  | fuel + 1, conn, s =>
    let b := o.stop s.si
    let s1 : St := ⟨s.xi, s.si + 1, s.ri⟩
    if b then
      if conn then (RRes.done, conn, s1, [Ev.stopRead true])
      else
        let ok := o.recon s1.ri
        let s2 : St := ⟨s1.xi, s1.si, s1.ri + 1⟩
        if ok then
          let rest := reconnect_loop o fuel true s2
          (rest.1, rest.2.1, rest.2.2.1,
            Ev.stopRead true :: Ev.reconAttempt true :: rest.2.2.2)
        else
          let rest := reconnect_loop o fuel false s2
          (rest.1, rest.2.1, rest.2.2.1,
            Ev.stopRead true :: Ev.reconAttempt false ::
              Ev.sleepMs 2000 :: rest.2.2.2)
    else (RRes.done, conn, s1, [Ev.stopRead false])

/-- The body of `if(display_result != 0 && nonstop)` in `send_packets`
(devio.c lines 357-388), entered after the second `nonstop` read returned
true: release both interfaces and close the handle when one is held, set
`current_handle = NULL`, sleep 1 second, then run the reconnection loop. -/
def reconnect_block (o : Oracle) (rfuel : Nat) (conn : Bool) (s : St) :
    RRes × Bool × St × List Ev :=
  let cleanup : List Ev :=
    if conn then [Ev.releaseIface 0, Ev.releaseIface 1, Ev.closeHandle] else []
  let rest := reconnect_loop o rfuel false s
  (rest.1, rest.2.1, rest.2.2.1, cleanup ++ Ev.sleepMs 1000 :: rest.2.2.2)

/-- The outer `while(nonstop)` loop of `send_packets` (devio.c lines
355-390).  Each iteration reads `nonstop`; when it is still set, it runs a
whole `display_data_arr` pass over the stream — always from offset 0, i.e.
from `*data_arr` — and, when the pass reports a transfer error, reads
`nonstop` again and (only if still set) runs the reconnection block. -/
def send_loop (k : Nat) (o : Oracle) (stream : List Byte) (endPos : Nat)
    (dfuel rfuel : Nat) : Nat → Bool → St → SRes × Bool × St × List Ev
  | 0, conn, s => (SRes.fuelOut, conn, s, [])
  | fuel + 1, conn, s =>
    let b := o.stop s.si
    let s1 : St := ⟨s.xi, s.si + 1, s.ri⟩
    if b then
      let d := display_data_arr k o stream endPos dfuel 0 s1
      match d.1 with
      | DRes.fuelOut => (SRes.fuelOut, conn, d.2.1, Ev.stopRead true :: d.2.2)
      | DRes.ok =>
        let rest := send_loop k o stream endPos dfuel rfuel fuel conn d.2.1
        (rest.1, rest.2.1, rest.2.2.1, Ev.stopRead true :: d.2.2 ++ rest.2.2.2)
      | DRes.err =>
        let b2 := o.stop d.2.1.si
        let s2 : St := ⟨d.2.1.xi, d.2.1.si + 1, d.2.1.ri⟩
        if b2 then
          let r := reconnect_block o rfuel conn s2
          match r.1 with
          | RRes.fuelOut =>
            (SRes.fuelOut, r.2.1, r.2.2.1,
              Ev.stopRead true :: d.2.2 ++ Ev.stopRead true :: r.2.2.2)
          | RRes.done =>
            let rest := send_loop k o stream endPos dfuel rfuel fuel r.2.1 r.2.2.1
            (rest.1, rest.2.1, rest.2.2.1,
              Ev.stopRead true :: d.2.2 ++
                Ev.stopRead true :: r.2.2.2 ++ rest.2.2.2)
        else
          let rest := send_loop k o stream endPos dfuel rfuel fuel conn s2
          (rest.1, rest.2.1, rest.2.2.1,
            Ev.stopRead true :: d.2.2 ++ Ev.stopRead false :: rest.2.2.2)
    else (SRes.finished, conn, s1, [Ev.stopRead false])

/-- `send_packets` (devio.c lines 338-398): sets `nonstop = 1`, runs the
outer loop with the open handle (`conn = true`), and on loop exit releases
both interfaces and closes the handle when one is still held (lines
393-397).  A `fuelOut` run was cut short by the model, so the final cleanup
of the C code is not yet reached there. -/
def send_packets (k : Nat) (o : Oracle) (stream : List Byte) (endPos : Nat)
    (dfuel rfuel ofuel : Nat) : SRes × Bool × St × List Ev :=
  let r := send_loop k o stream endPos dfuel rfuel ofuel true ⟨0, 0, 0⟩
  match r.1 with
  | SRes.finished =>
    (r.1, r.2.1, r.2.2.1,
      r.2.2.2 ++
        (if r.2.1 then [Ev.releaseIface 0, Ev.releaseIface 1, Ev.closeHandle]
         else []))
  | SRes.fuelOut => r

/- ### Trace observations -/

/-- Is the event a data-frame transfer? -/
def isDataEv : Ev → Bool
  | .xferData _ _ => true
  | _ => false

/-- Number of data-frame transfers in a trace. -/
def dataCount (l : List Ev) : Nat := l.countP (fun e => isDataEv e)

/-- Stream position of the first data-frame transfer of a trace, if any. -/
def firstDataPos : List Ev → Option Nat
  | [] => none
  | .xferData p _ :: _ => some p
  | _ :: rest => firstDataPos rest

/- ### Shape lemmas: which events each loop can emit -/

/-- Every event of a `display_data_arr` pass is a flag read, a header
transfer, a data transfer, or the 20 ms pacing sleep. -/
theorem display_ev_shape (k : Nat) (o : Oracle) (stream : List Byte)
    (endPos : Nat) :
    ∀ fuel pos s, ∀ e ∈ (display_data_arr k o stream endPos fuel pos s).2.2,
      (∃ b, e = Ev.stopRead b) ∨ e = Ev.xferHeader header_packet ∨
      (∃ p f, e = Ev.xferData p f) ∨ e = Ev.sleepMs 20 := by
  intro fuel
  induction fuel with
  | zero => intro pos s e he; simp [display_data_arr] at he
  | succ n ih =>
    intro pos s e he
    by_cases hp : pos < endPos
    · by_cases hb : o.stop s.si
      · by_cases h1 : o.xfer s.xi = (PACKET_SIZE : Int)
        · by_cases h2 : o.xfer (s.xi + 1) = (PACKET_SIZE : Int)
          · simp [display_data_arr, hp, hb, h1, h2] at he
            rcases he with rfl | rfl | rfl | rfl | he
            · exact Or.inl ⟨true, rfl⟩
            · exact Or.inr (Or.inl rfl)
            · exact Or.inr (Or.inr (Or.inl ⟨pos, _, rfl⟩))
            · exact Or.inr (Or.inr (Or.inr rfl))
            · exact ih _ _ e he
          · simp [display_data_arr, hp, hb, h1, h2] at he
            rcases he with rfl | rfl | rfl
            · exact Or.inl ⟨true, rfl⟩
            · exact Or.inr (Or.inl rfl)
            · exact Or.inr (Or.inr (Or.inl ⟨pos, _, rfl⟩))
        · simp [display_data_arr, hp, hb, h1] at he
          rcases he with rfl | rfl
          · exact Or.inl ⟨true, rfl⟩
          · exact Or.inr (Or.inl rfl)
      · simp [display_data_arr, hp, hb] at he
        exact Or.inl ⟨false, he⟩
    · simp [display_data_arr, hp] at he

/-- Every event of the reconnection loop is a flag read, a reconnect
attempt, or the 2-second between-attempts sleep. -/
theorem reconnect_ev_shape (o : Oracle) :
    ∀ fuel conn s, ∀ e ∈ (reconnect_loop o fuel conn s).2.2.2,
      (∃ b, e = Ev.stopRead b) ∨ (∃ b, e = Ev.reconAttempt b) ∨
      e = Ev.sleepMs 2000 := by
  intro fuel
  induction fuel with
  | zero => intro conn s e he; simp [reconnect_loop] at he
  | succ n ih =>
    intro conn s e he
    by_cases hb : o.stop s.si
    · by_cases hc : conn
      · simp [reconnect_loop, hb, hc] at he
        exact Or.inl ⟨true, he⟩
      · by_cases hk : o.recon s.ri
        · simp [reconnect_loop, hb, hc, hk] at he
          rcases he with rfl | rfl | he
          · exact Or.inl ⟨true, rfl⟩
          · exact Or.inr (Or.inl ⟨true, rfl⟩)
          · exact ih _ _ e he
        · simp [reconnect_loop, hb, hc, hk] at he
          rcases he with rfl | rfl | rfl | he
          · exact Or.inl ⟨true, rfl⟩
          · exact Or.inr (Or.inl ⟨false, rfl⟩)
          · exact Or.inr (Or.inr rfl)
          · exact ih _ _ e he
    · simp [reconnect_loop, hb] at he
      exact Or.inl ⟨false, he⟩

/- ### Theorems for the packet codec and matcher claims -/

/-- C5: every header frame is exactly 64 bytes, with byte 0 = 0x04,
byte 1 = 0xf2, byte 8 = 0x01; the other 61 bytes (including bytes 32..63,
which the C initializer leaves implicit) are all zero — witnessed by the
zero-count being 61. -/
theorem c5_header_packet_shape :
    header_packet.length = 64 ∧
    header_packet.getD 0 0 = 0x04 ∧
    header_packet.getD 1 0 = 0xf2 ∧
    header_packet.getD 8 0 = 0x01 ∧
    header_packet.count 0 = 61 := by
  decide

/-- C8: the device matcher accepts exactly the (vendor, product) pairs of
the identity table — a listed vendor with an unlisted product is rejected —
and a device whose descriptor cannot be read is reported as not supported
(`false`) rather than as an error. -/
theorem c8_matcher_iff_table :
    (∀ vid pid : Nat,
      is_compatible_mic (some (vid, pid)) = true ↔ (vid, pid) ∈ identity_table) ∧
    is_compatible_mic none = false := by
  refine ⟨?_, rfl⟩
  intro vid pid
  by_cases h1 : vid = DEV_VID_KINGSTON
  · subst h1
    simp [is_compatible_mic, identity_table, product_ids_kingston,
      DEV_VID_KINGSTON, DEV_VID_HP, List.contains, Prod.ext_iff]
  · by_cases h2 : vid = DEV_VID_HP
    · subst h2
      simp [is_compatible_mic, identity_table, product_ids_hp,
        DEV_VID_KINGSTON, DEV_VID_HP, List.contains, Prod.ext_iff]
    · have hk : ¬vid = 0x0951 := by simpa [DEV_VID_KINGSTON] using h1
      have hh : ¬vid = 0x03f0 := by simpa [DEV_VID_HP] using h2
      simp [is_compatible_mic, identity_table, DEV_VID_KINGSTON, DEV_VID_HP,
        Prod.ext_iff, hk, hh]

/-- Witness for `c8_matcher_iff_table` at the Kingston pair. -/
theorem c8_witness :
    (is_compatible_mic (some (0x0951, 0x171f)) = true ↔
      (0x0951, 0x171f) ∈ identity_table) ∧
    is_compatible_mic none = false :=
  ⟨c8_matcher_iff_table.1 0x0951 0x171f, c8_matcher_iff_table.2⟩

/-- C3 counterexample: two different fatal conditions ("no supported device
found" and "device open failure after retries") exit with the same code 2,
so exit codes are not pairwise distinct; moreover the interface-claim
failure classified as "other" prints no message at all, so a fatal condition
does terminate silently. -/
theorem c3_exit_codes_counterexample :
    exit_code FatalCond.noDevFound = exit_code FatalCond.openFail ∧
    fatal_msgs FatalCond.claimOther = [] := by
  decide

/-- C3 amended: every fatal condition terminates the process with the same
exit code 2 (`libusberr`); each prints a user-facing message except the
interface-claim failure classified as "other", which terminates silently;
of the three claim-failure classifications, "busy" has its own message
while "gone" reuses the open-failure message `OPEN_ERR_MSG`. -/
theorem c3_amended_exit_uniform :
    (exit_code FatalCond.initFail = libusberr ∧
     exit_code FatalCond.devListFail = libusberr ∧
     exit_code FatalCond.noDevFound = libusberr ∧
     exit_code FatalCond.openFail = libusberr ∧
     exit_code FatalCond.claimBusy = libusberr ∧
     exit_code FatalCond.claimGone = libusberr ∧
     exit_code FatalCond.claimOther = libusberr) ∧
    (fatal_msgs FatalCond.initFail ≠ [] ∧
     fatal_msgs FatalCond.devListFail ≠ [] ∧
     fatal_msgs FatalCond.noDevFound ≠ [] ∧
     fatal_msgs FatalCond.openFail ≠ [] ∧
     fatal_msgs FatalCond.claimBusy ≠ [] ∧
     fatal_msgs FatalCond.claimGone ≠ []) ∧
    fatal_msgs FatalCond.claimOther = [] ∧
    fatal_msgs FatalCond.claimBusy ≠ fatal_msgs FatalCond.claimGone ∧
    fatal_msgs FatalCond.claimGone = [CMsg.openErr] := by
  decide

/- ### C1, C2: what actually happens after a failure / after exhaustion -/

/-- C1 counterexample: `BYTE_STEP = 1`, stream `[1,2,3,4]` (two color
commands, `end` offset 4); the fourth control transfer — the data frame at
stream position 2 — fails, every `nonstop` read is 1, and the first
reconnect attempt succeeds.  In the resulting trace the failing data
transfer is event 7 (position 2), the successful reconnect is event 14,
and event 19 is a data transfer of position 0: the frame before the failed
one is re-sent after reconnection, so the stream read position is not
preserved and earlier frames are replayed, contradicting the claim. -/
theorem c1_replay_counterexample :
    ((send_packets 1 ⟨fun i => if i = 3 then 0 else 64, fun _ => true, fun _ => true⟩
        [1, 2, 3, 4] 4 3 3 2).2.2.2.get? 7 =
      some (Ev.xferData 2 (mkDataPacket 1 [1, 2, 3, 4] 2))) ∧
    ((send_packets 1 ⟨fun i => if i = 3 then 0 else 64, fun _ => true, fun _ => true⟩
        [1, 2, 3, 4] 4 3 3 2).2.2.2.get? 14 = some (Ev.reconAttempt true)) ∧
    ((send_packets 1 ⟨fun i => if i = 3 then 0 else 64, fun _ => true, fun _ => true⟩
        [1, 2, 3, 4] 4 3 3 2).2.2.2.get? 19 =
      some (Ev.xferData 0 (mkDataPacket 1 [1, 2, 3, 4] 0))) := by
  decide

/-- C2 counterexample: `BYTE_STEP = 1`, a stream of a single color command
(`[7,8]`, `end` offset 2), every transfer succeeds and no stop signal is
ever delivered.  After the stream is exhausted the loop does not stop:
three outer iterations have already sent the single data frame three
times, and the run is still going (`send_packets` has not returned).  So
the streaming loop does not reach a stopped state at stream exhaustion; it
keeps sending further frames. -/
theorem c2_loops_after_exhaustion_counterexample :
    dataCount (send_packets 1 ⟨fun _ => 64, fun _ => true, fun _ => true⟩
        [7, 8] 2 2 1 3).2.2.2 = 3 ∧
    (send_packets 1 ⟨fun _ => 64, fun _ => true, fun _ => true⟩
        [7, 8] 2 2 1 3).1 ≠ SRes.finished := by
  decide

/-- C10: when a streaming pass reports a transfer failure (`display_data_arr`
returns -1) but the `nonstop` flag is read as 0 at the `if(display_result
!= 0 && nonstop)` check, `send_packets` skips the whole reconnection block:
no `attempt_reconnect` call and no pre-reconnection wait happens — the pass
trace contains no reconnect attempt and no 1-second sleep, and the loop
does exactly two more flag reads (the skipped `if` already consumed one,
then the `while` re-check) before leaving the loop with the handle still
held, so that the final cleanup (release both interfaces, close) follows
directly. -/
theorem c10_stop_skips_reconnect
    (k : Nat) (o : Oracle) (stream : List Byte) (endPos dfuel rfuel fuel : Nat)
    (conn : Bool) (s s2 : St) (devs : List Ev)
    (hmono : ∀ i, o.stop i = false → o.stop (i + 1) = false)
    (h1 : o.stop s.si = true)
    (hd : display_data_arr k o stream endPos dfuel 0 ⟨s.xi, s.si + 1, s.ri⟩ =
      (DRes.err, s2, devs))
    (h2 : o.stop s2.si = false) :
    send_loop k o stream endPos dfuel rfuel (fuel + 2) conn s =
      (SRes.finished, conn, ⟨s2.xi, s2.si + 2, s2.ri⟩,
        Ev.stopRead true :: devs ++ [Ev.stopRead false, Ev.stopRead false]) ∧
    (∀ b, Ev.reconAttempt b ∉ devs) ∧ Ev.sleepMs 1000 ∉ devs := by
  have h3 : o.stop (s2.si + 1) = false := hmono _ h2
  have hs := display_ev_shape k o stream endPos dfuel 0 ⟨s.xi, s.si + 1, s.ri⟩
  rw [hd] at hs
  refine ⟨?_, ?_, ?_⟩
  · show send_loop k o stream endPos dfuel rfuel (fuel + 1 + 1) conn s = _
    simp [send_loop, h1, hd, h2, h3]
  · intro b hb
    rcases hs _ hb with ⟨b', h⟩ | h | ⟨p, f, h⟩ | h <;> simp at h
  · intro hb
    rcases hs _ hb with ⟨b', h⟩ | h | ⟨p, f, h⟩ | h <;> simp at h

/-- Witness for `c10_stop_skips_reconnect`: `BYTE_STEP = 1`, stream `[5,6]`,
the first transfer fails, the flag drops to 0 after its second read. -/
theorem c10_witness :
    send_loop 1 ⟨fun _ => 0, fun i => decide (i < 2), fun _ => true⟩
        [5, 6] 2 1 1 2 true ⟨0, 0, 0⟩ =
      (SRes.finished, true, ⟨1, 4, 0⟩,
        Ev.stopRead true :: [Ev.stopRead true, Ev.xferHeader header_packet] ++
          [Ev.stopRead false, Ev.stopRead false]) ∧
    (∀ b, Ev.reconAttempt b ∉
      [Ev.stopRead true, Ev.xferHeader header_packet]) ∧
    Ev.sleepMs 1000 ∉ [Ev.stopRead true, Ev.xferHeader header_packet] :=
  c10_stop_skips_reconnect 1 ⟨fun _ => 0, fun i => decide (i < 2), fun _ => true⟩
    [5, 6] 2 1 1 0 true ⟨0, 0, 0⟩ ⟨1, 2, 0⟩
    [Ev.stopRead true, Ev.xferHeader header_packet]
    (by intro i h; simp at h ⊢; omega)
    (by decide) (by decide) (by decide)

/-- Helper: with the `nonstop` flag never cleared, the outer loop of
`send_packets` never leaves via the `while(nonstop)` check, whatever the
fuel. -/
theorem send_loop_no_finish (k : Nat) (o : Oracle) (stream : List Byte)
    (endPos dfuel rfuel : Nat) (hstop : ∀ i, o.stop i = true) :
    ∀ ofuel conn s,
      (send_loop k o stream endPos dfuel rfuel ofuel conn s).1 = SRes.fuelOut := by
  intro ofuel
  induction ofuel with
  | zero => intro conn s; simp [send_loop]
  | succ n ih =>
    intro conn s
    rcases hdd : display_data_arr k o stream endPos dfuel 0 ⟨s.xi, s.si + 1, s.ri⟩
      with ⟨dres, s2, devs⟩
    cases dres with
    | fuelOut => simp [send_loop, hstop, hdd]
    | ok => simp [send_loop, hstop, hdd, ih]
    | err =>
      rcases hrr : reconnect_block o rfuel conn ⟨s2.xi, s2.si + 1, s2.ri⟩
        with ⟨rres, c2, s3, revs⟩
      cases rres with
      | fuelOut => simp [send_loop, hstop, hdd, hrr]
      | done => simp [send_loop, hstop, hdd, hrr, ih]

/-- C2 amended: the streaming loop does NOT stop at stream exhaustion.
When no stop signal is ever delivered (`nonstop` stays 1), `send_packets`
never returns, however much fuel the model grants: after the stream is
exhausted, `display_data_arr` returns 0 and the outer `while(nonstop)`
immediately starts a new pass over the same stream from its start.
`send_packets` terminates only through a cleared stop flag. -/
theorem c2_amended_no_termination_without_stop (k : Nat) (o : Oracle)
    (stream : List Byte) (endPos dfuel rfuel ofuel : Nat)
    (hstop : ∀ i, o.stop i = true) :
    (send_packets k o stream endPos dfuel rfuel ofuel).1 = SRes.fuelOut := by
  have h := send_loop_no_finish k o stream endPos dfuel rfuel hstop ofuel true ⟨0, 0, 0⟩
  unfold send_packets
  rcases hr : send_loop k o stream endPos dfuel rfuel ofuel true ⟨0, 0, 0⟩
    with ⟨r, c, s, evs⟩
  rw [hr] at h
  simp at h
  subst h
  simp

/-- Witness for `c2_amended_no_termination_without_stop`: the single-command
stream of the C2 counterexample, all transfers succeeding, flag never
cleared, three iterations of fuel. -/
theorem c2_amended_witness :
    (send_packets 1 ⟨fun _ => 64, fun _ => true, fun _ => true⟩
        [7, 8] 2 2 1 3).1 = SRes.fuelOut :=
  c2_amended_no_termination_without_stop 1
    ⟨fun _ => 64, fun _ => true, fun _ => true⟩ [7, 8] 2 2 1 3 (fun _ => rfl)

/-- Helper for C9: classification of how the reconnection loop can
terminate (other than running out of model fuel): with a connection in
hand — which, starting from `conn = false`, requires some successful
`attempt_reconnect` — or with the stop flag read as 0. -/
theorem reconnect_loop_done_cases (o : Oracle) :
    ∀ fuel conn s c s' evs,
      reconnect_loop o fuel conn s = (RRes.done, c, s', evs) →
      (c = true ∧ (conn = true ∨ ∃ i, o.recon i = true)) ∨
      (c = false ∧ ∃ i, o.stop i = false) := by
  intro fuel
  induction fuel with
  | zero => intro conn s c s' evs h; simp [reconnect_loop] at h
  | succ n ih =>
    intro conn s c s' evs h
    by_cases hb : o.stop s.si
    · by_cases hc : conn
      · simp [reconnect_loop, hb, hc] at h
        exact Or.inl ⟨by simp_all, Or.inl hc⟩
      · by_cases hk : o.recon s.ri
        · simp only [reconnect_loop, hb, if_true, hc, if_false, hk] at h
          rcases hh : reconnect_loop o n true ⟨s.xi, s.si + 1, s.ri + 1⟩
            with ⟨r, c2, s2, evs2⟩
          rw [hh] at h
          simp at h
          obtain ⟨rfl, rfl, -, -⟩ := h
          rcases ih true _ _ _ _ hh with ⟨h1, -⟩ | h2
          · exact Or.inl ⟨h1, Or.inr ⟨s.ri, hk⟩⟩
          · exact Or.inr h2
        · simp only [reconnect_loop, hb, if_true, hc, if_false, hk] at h
          rcases hh : reconnect_loop o n false ⟨s.xi, s.si + 1, s.ri + 1⟩
            with ⟨r, c2, s2, evs2⟩
          rw [hh] at h
          simp at h
          obtain ⟨rfl, rfl, -, -⟩ := h
          rcases ih false _ _ _ _ hh with ⟨h1, hor⟩ | h2
          · rcases hor with hfalse | hex
            · exact absurd hfalse (by simp)
            · exact Or.inl ⟨h1, Or.inr hex⟩
          · exact Or.inr h2
    · simp [reconnect_loop, hb] at h
      obtain ⟨rfl, -, -⟩ := h
      cases hcv : conn
      · exact Or.inr ⟨rfl, s.si, by simpa using hb⟩
      · exact Or.inl ⟨rfl, Or.inl rfl⟩

/-- C9: the reconnection supervisor is unbounded and exits only by success
or stop.  (1) When the device never reappears (every `attempt_reconnect`
fails) and the stop flag is never cleared, the loop performs exactly one
attempt followed by a 2-second wait per unit of fuel — for every fuel, so
there is no attempt limit and no attempt-exhaustion error; the run is
simply still going.  (2) Whenever the loop does terminate, it is either
with a connection in hand — which, entered with `current_handle == NULL`,
requires some successful `attempt_reconnect` — or because a `nonstop` read
returned 0.  (3) The surrounding block always sleeps 1 second before the
loop's first attempt (after releasing the broken connection). -/
theorem c9_reconnect_unbounded :
    (∀ (o : Oracle) (s : St), (∀ i, o.stop i = true) → (∀ i, o.recon i = false) →
      ∀ fuel, reconnect_loop o fuel false s =
        (RRes.fuelOut, false, ⟨s.xi, s.si + fuel, s.ri + fuel⟩,
          (List.replicate fuel
            [Ev.stopRead true, Ev.reconAttempt false, Ev.sleepMs 2000]).flatten)) ∧
    (∀ (o : Oracle) (s : St) (fuel : Nat) (c : Bool) (s' : St) (evs : List Ev),
      reconnect_loop o fuel false s = (RRes.done, c, s', evs) →
      (c = true ∧ ∃ i, o.recon i = true) ∨ (c = false ∧ ∃ i, o.stop i = false)) ∧
    (∀ (o : Oracle) (rfuel : Nat) (conn : Bool) (s : St),
      (reconnect_block o rfuel conn s).2.2.2 =
        (if conn then [Ev.releaseIface 0, Ev.releaseIface 1, Ev.closeHandle]
         else []) ++
          Ev.sleepMs 1000 :: (reconnect_loop o rfuel false s).2.2.2) := by
  refine ⟨?_, ?_, ?_⟩
  · intro o s hstop hrecon fuel
    induction fuel generalizing s with
    | zero => simp [reconnect_loop]
    | succ n ih =>
      simp only [reconnect_loop, hstop, if_true, Bool.false_eq_true, if_false,
        hrecon, ih, List.replicate_succ, List.flatten_cons]
      have h1 : s.si + 1 + n = s.si + (n + 1) := by omega
      have h2 : s.ri + 1 + n = s.ri + (n + 1) := by omega
      simp [h1, h2]
  · intro o s fuel c s' evs h
    rcases reconnect_loop_done_cases o fuel false s c s' evs h with ⟨h1, hor⟩ | h2
    · rcases hor with hfalse | hex
      · exact absurd hfalse (by simp)
      · exact Or.inl ⟨h1, hex⟩
    · exact Or.inr h2
  · intro o rfuel conn s
    rfl

/-- Witness for `c9_reconnect_unbounded`: part 1 with two units of fuel and
an always-failing reconnect oracle; part 2 with a first-attempt-succeeds
oracle; part 3 with a held connection. -/
theorem c9_witness :
    (reconnect_loop ⟨fun _ => 64, fun _ => true, fun _ => false⟩ 2 false ⟨0, 0, 0⟩ =
      (RRes.fuelOut, false, ⟨0, 0 + 2, 0 + 2⟩,
        (List.replicate 2
          [Ev.stopRead true, Ev.reconAttempt false, Ev.sleepMs 2000]).flatten)) ∧
    ((true = true ∧ ∃ i, (fun (_ : Nat) => true) i = true) ∨
      (true = false ∧ ∃ i, (fun (_ : Nat) => true) i = false)) ∧
    ((reconnect_block ⟨fun _ => 64, fun _ => true, fun _ => true⟩ 1 true ⟨0, 0, 0⟩).2.2.2 =
      (if true then [Ev.releaseIface 0, Ev.releaseIface 1, Ev.closeHandle]
       else []) ++
        Ev.sleepMs 1000 ::
          (reconnect_loop ⟨fun _ => 64, fun _ => true, fun _ => true⟩ 1 false
            ⟨0, 0, 0⟩).2.2.2) :=
  ⟨c9_reconnect_unbounded.1 ⟨fun _ => 64, fun _ => true, fun _ => false⟩ ⟨0, 0, 0⟩
      (fun _ => rfl) (fun _ => rfl) 2,
   c9_reconnect_unbounded.2.1 ⟨fun _ => 64, fun _ => true, fun _ => true⟩ ⟨0, 0, 0⟩
      2 true ⟨0, 2, 1⟩ [Ev.stopRead true, Ev.reconAttempt true, Ev.stopRead true]
      (by decide),
   c9_reconnect_unbounded.2.2 ⟨fun _ => 64, fun _ => true, fun _ => true⟩ 1 true
      ⟨0, 0, 0⟩⟩

/- ### C4: one header immediately before every data frame -/

/-- Is the event a header-frame transfer? -/
def isHeaderEv : Ev → Bool
  | .xferHeader _ => true
  | _ => false

/-- Scanning check: every data-frame transfer in the list is immediately
preceded by a header-frame transfer.  `prev` records whether the event
just before the list's head was a header transfer. -/
def hbdFrom (prev : Bool) : List Ev → Bool
  | [] => true
  | e :: rest => (if isDataEv e then prev else true) && hbdFrom (isHeaderEv e) rest

/-- Appending preserves the header-before-data check when the second part
passes it for every incoming flag. -/
theorem hbdFrom_append (l1 l2 : List Ev) :
    ∀ b, hbdFrom b l1 = true → (∀ b', hbdFrom b' l2 = true) →
      hbdFrom b (l1 ++ l2) = true := by
  induction l1 with
  | nil => intro b _ h2; exact h2 b
  | cons e t ih =>
    intro b h1 h2
    simp only [hbdFrom, Bool.and_eq_true] at h1
    simp only [List.cons_append, hbdFrom, Bool.and_eq_true]
    exact ⟨h1.1, ih _ h1.2 h2⟩

/-- A list without data-frame transfers passes the check under any flag. -/
theorem hbdFrom_of_noData (l : List Ev) (h : ∀ e ∈ l, isDataEv e = false) :
    ∀ b, hbdFrom b l = true := by
  induction l with
  | nil => intro b; rfl
  | cons e t ih =>
    intro b
    simp only [hbdFrom, Bool.and_eq_true]
    refine ⟨?_, ih (fun e he => h e (List.mem_cons_of_mem _ he)) _⟩
    have := h e (List.mem_cons_self e t)
    simp [this]

/-- Every `display_data_arr` trace passes the header-before-data check:
within a pass, a data transfer is always the event right after its header
transfer. -/
theorem display_hbd (k : Nat) (o : Oracle) (stream : List Byte) (endPos : Nat) :
    ∀ fuel pos s b,
      hbdFrom b (display_data_arr k o stream endPos fuel pos s).2.2 = true := by
  intro fuel
  induction fuel with
  | zero => intro pos s b; simp [display_data_arr, hbdFrom]
  | succ n ih =>
    intro pos s b
    by_cases hp : pos < endPos
    · by_cases hb : o.stop s.si
      · by_cases h1 : o.xfer s.xi = (PACKET_SIZE : Int)
        · by_cases h2 : o.xfer (s.xi + 1) = (PACKET_SIZE : Int)
          · simp [display_data_arr, hp, hb, h1, h2, hbdFrom, isDataEv,
              isHeaderEv, ih]
          · simp [display_data_arr, hp, hb, h1, h2, hbdFrom, isDataEv, isHeaderEv]
        · simp [display_data_arr, hp, hb, h1, hbdFrom, isDataEv, isHeaderEv]
      · simp [display_data_arr, hp, hb, hbdFrom, isDataEv, isHeaderEv]
    · simp [display_data_arr, hp, hbdFrom]

/-- The reconnection block emits no data-frame transfer. -/
theorem reconnect_block_noData (o : Oracle) (rfuel : Nat) (conn : Bool) (s : St) :
    ∀ e ∈ (reconnect_block o rfuel conn s).2.2.2, isDataEv e = false := by
  intro e he
  simp only [reconnect_block, List.mem_append, List.mem_cons] at he
  rcases he with hc | rfl | hr
  · rcases conn with _ | _ <;> simp_all [isDataEv]
    rcases hc with rfl | rfl | rfl <;> rfl
  · rfl
  · rcases reconnect_ev_shape o rfuel false s e hr with ⟨b, rfl⟩ | ⟨b, rfl⟩ | rfl <;>
      rfl

/-- Every `send_loop` trace passes the header-before-data check. -/
theorem send_loop_hbd (k : Nat) (o : Oracle) (stream : List Byte)
    (endPos dfuel rfuel : Nat) :
    ∀ ofuel conn s b,
      hbdFrom b (send_loop k o stream endPos dfuel rfuel ofuel conn s).2.2.2 =
        true := by
  intro ofuel
  induction ofuel with
  | zero => intro conn s b; simp [send_loop, hbdFrom]
  | succ n ih =>
    intro conn s b
    by_cases hb : o.stop s.si
    · rcases hdd : display_data_arr k o stream endPos dfuel 0 ⟨s.xi, s.si + 1, s.ri⟩
        with ⟨dres, s2, devs⟩
      have hdevs : ∀ b', hbdFrom b' devs = true := by
        intro b'
        have := display_hbd k o stream endPos dfuel 0 ⟨s.xi, s.si + 1, s.ri⟩ b'
        rw [hdd] at this
        exact this
      cases dres with
      | fuelOut =>
        simp only [send_loop, hb, if_true, hdd, hbdFrom, Bool.and_eq_true]
        exact ⟨by simp [isDataEv], hdevs _⟩
      | ok =>
        simp only [send_loop, hb, if_true, hdd, hbdFrom, Bool.and_eq_true]
        refine ⟨by simp [isDataEv], ?_⟩
        exact hbdFrom_append _ _ _ (hdevs _) (fun b' => ih _ _ b')
      | err =>
        by_cases hb2 : o.stop s2.si
        · rcases hrr : reconnect_block o rfuel conn ⟨s2.xi, s2.si + 1, s2.ri⟩
            with ⟨rres, c2, s3, revs⟩
          have hrevs : ∀ e ∈ revs, isDataEv e = false := by
            intro e he
            have := reconnect_block_noData o rfuel conn ⟨s2.xi, s2.si + 1, s2.ri⟩ e
            rw [hrr] at this
            exact this he
          cases rres with
          | fuelOut =>
            simp only [send_loop, hb, if_true, hdd, hb2, hrr, hbdFrom,
              Bool.and_eq_true]
            refine ⟨by simp [isDataEv], ?_⟩
            refine hbdFrom_append _ _ _ (hdevs _) ?_
            intro b'
            simp only [hbdFrom, Bool.and_eq_true]
            exact ⟨by simp [isDataEv], hbdFrom_of_noData _ hrevs _⟩
          | done =>
            simp only [send_loop, hb, if_true, hdd, hb2, hrr, hbdFrom,
              List.append_assoc, List.cons_append, Bool.and_eq_true]
            refine ⟨by simp [isDataEv], ?_⟩
            refine hbdFrom_append _ _ _ (hdevs _) ?_
            intro b'
            simp only [hbdFrom, Bool.and_eq_true]
            refine ⟨by simp [isDataEv], ?_⟩
            exact hbdFrom_append _ _ _ (hbdFrom_of_noData _ hrevs _)
              (fun b'' => ih _ _ b'')
        · simp only [send_loop, hb, if_true, hdd, hb2, Bool.false_eq_true,
            if_false, hbdFrom, Bool.and_eq_true]
          refine ⟨by simp [isDataEv], ?_⟩
          refine hbdFrom_append _ _ _ (hdevs _) ?_
          intro b'
          simp only [hbdFrom, Bool.and_eq_true]
          exact ⟨by simp [isDataEv], ih _ _ _⟩
    · simp [send_loop, hb, hbdFrom, isDataEv, isHeaderEv]

/-- Bridge from the scanning check to the positional statement: under an
incoming flag `b`, a data transfer at index `i` of a checked list is at
index 0 with `b = true`, or has a header transfer at index `i - 1`. -/
theorem hbdFrom_get (l : List Ev) :
    ∀ b, hbdFrom b l = true → ∀ i p f, l.get? i = some (Ev.xferData p f) →
      (i = 0 ∧ b = true) ∨
      (1 ≤ i ∧ ∃ hf, l.get? (i - 1) = some (Ev.xferHeader hf)) := by
  induction l with
  | nil => intro b _ i p f hi; simp at hi
  | cons e t ih =>
    intro b hb i p f hi
    simp only [hbdFrom, Bool.and_eq_true] at hb
    cases i with
    | zero =>
      simp only [List.get?_cons_zero, Option.some.injEq] at hi
      subst hi
      exact Or.inl ⟨rfl, by simpa [isDataEv] using hb.1⟩
    | succ j =>
      simp only [List.get?_cons_succ] at hi
      rcases ih _ hb.2 j p f hi with ⟨rfl, hhd⟩ | ⟨hj, hf, hget⟩
      · right
        refine ⟨by omega, ?_⟩
        cases e <;> simp [isHeaderEv] at hhd
        exact ⟨_, rfl⟩
      · right
        refine ⟨by omega, ?_⟩
        obtain ⟨j', rfl⟩ : ∃ j', j = j' + 1 := ⟨j - 1, by omega⟩
        exact ⟨hf, by simpa using hget⟩

/-- The full `send_packets` trace passes the header-before-data check. -/
theorem send_packets_hbd (k : Nat) (o : Oracle) (stream : List Byte)
    (endPos dfuel rfuel ofuel : Nat) :
    hbdFrom false (send_packets k o stream endPos dfuel rfuel ofuel).2.2.2 =
      true := by
  have h1 := send_loop_hbd k o stream endPos dfuel rfuel ofuel true ⟨0, 0, 0⟩ false
  rcases hr : send_loop k o stream endPos dfuel rfuel ofuel true ⟨0, 0, 0⟩
    with ⟨r, c, s, evs⟩
  rw [hr] at h1
  cases r with
  | fuelOut => simpa [send_packets, hr] using h1
  | finished =>
    simp only [send_packets, hr]
    exact hbdFrom_append _ _ _ h1
      (by intro b'; cases c <;> simp [hbdFrom, isDataEv, isHeaderEv])

/-- C4: in every run, exactly one header frame is transferred immediately
before each data frame: any data-frame transfer in the trace sits at an
index `i ≥ 1` whose immediately preceding event is a header-frame
transfer — so two data frames are never sent without an intervening
header, for streams of any length and any transfer/stop/reconnect
behavior. -/
theorem c4_header_immediately_before_data (k : Nat) (o : Oracle)
    (stream : List Byte) (endPos dfuel rfuel ofuel : Nat) :
    ∀ i p f,
      (send_packets k o stream endPos dfuel rfuel ofuel).2.2.2.get? i =
        some (Ev.xferData p f) →
      1 ≤ i ∧ ∃ hf,
        (send_packets k o stream endPos dfuel rfuel ofuel).2.2.2.get? (i - 1) =
          some (Ev.xferHeader hf) := by
  intro i p f hi
  rcases hbdFrom_get _ false (send_packets_hbd k o stream endPos dfuel rfuel ofuel)
      i p f hi with ⟨-, hfalse⟩ | h
  · exact absurd hfalse (by simp)
  · exact h

/-- Witness for `c4_header_immediately_before_data`: in the one-command
all-success run, the data transfer at trace index 3 is immediately
preceded by the header transfer at index 2. -/
theorem c4_witness :
    1 ≤ 3 ∧ ∃ hf,
      (send_packets 1 ⟨fun _ => 64, fun _ => true, fun _ => true⟩
          [7, 8] 2 2 1 1).2.2.2.get? (3 - 1) = some (Ev.xferHeader hf) :=
  c4_header_immediately_before_data 1 ⟨fun _ => 64, fun _ => true, fun _ => true⟩
    [7, 8] 2 2 1 1 3 0 (mkDataPacket 1 [7, 8] 0) (by decide)

/- ### C6: data-frame contents and stream-end safety -/

/-- Within a `display_data_arr` pass: provided `2*BYTE_STEP` divides the
remaining distance to `end` (which `send_packets` guarantees, since the
stream length is `2*BYTE_STEP*command_cnt`), every data frame sent from
position `p` stays fully inside the stream (`p + 2k ≤ endPos`) and carries
exactly the bytes `p .. p+2k-1` followed by zeros. -/
theorem display_data_frames (k : Nat) (o : Oracle) (stream : List Byte)
    (endPos : Nat) :
    ∀ fuel pos s, (2 * k) ∣ (endPos - pos) →
      ∀ p f, Ev.xferData p f ∈ (display_data_arr k o stream endPos fuel pos s).2.2 →
        p + 2 * k ≤ endPos ∧ f = mkDataPacket k stream p := by
  intro fuel
  induction fuel with
  | zero => intro pos s _ p f he; simp [display_data_arr] at he
  | succ n ih =>
    intro pos s hdvd p f he
    by_cases hp : pos < endPos
    · obtain ⟨m, hm⟩ := hdvd
      have hm1 : m ≠ 0 := by
        rintro rfl
        simp at hm
        omega
      obtain ⟨m', rfl⟩ : ∃ m', m = m' + 1 := ⟨m - 1, by omega⟩
      rw [Nat.mul_succ] at hm
      have hbound : pos + 2 * k ≤ endPos := by omega
      have hdvd' : (2 * k) ∣ (endPos - (pos + 2 * k)) := ⟨m', by omega⟩
      by_cases hb : o.stop s.si
      · by_cases h1 : o.xfer s.xi = (PACKET_SIZE : Int)
        · by_cases h2 : o.xfer (s.xi + 1) = (PACKET_SIZE : Int)
          · simp only [display_data_arr, hp, if_true, hb, h1, h2,
              List.mem_cons] at he
            rcases he with he | he | he | he | he
            · simp at he
            · simp at he
            · simp only [Ev.xferData.injEq] at he
              exact ⟨he.1 ▸ hbound, he.1 ▸ he.2 ▸ rfl⟩
            · simp at he
            · exact ih _ _ hdvd' p f he
          · simp only [display_data_arr, hp, if_true, hb, h1, h2,
              Bool.false_eq_true, if_false, List.mem_cons] at he
            rcases he with he | he | he | he
            · simp at he
            · simp at he
            · simp only [Ev.xferData.injEq] at he
              exact ⟨he.1 ▸ hbound, he.1 ▸ he.2 ▸ rfl⟩
            · simp at he
        · simp only [display_data_arr, hp, if_true, hb, h1,
            Bool.false_eq_true, if_false, List.mem_cons] at he
          rcases he with he | he | he <;> simp at he
      · simp only [display_data_arr, hp, if_true, hb, Bool.false_eq_true,
          if_false, List.mem_cons] at he
        rcases he with he | he <;> simp at he
    · simp [display_data_arr, hp] at he

/-- Lifting `display_data_frames` through the outer loop: every pass starts
at position 0, so divisibility of `endPos` itself suffices. -/
theorem send_loop_data_frames (k : Nat) (o : Oracle) (stream : List Byte)
    (endPos dfuel rfuel : Nat) (hdvd : (2 * k) ∣ endPos) :
    ∀ ofuel conn s, ∀ p f,
      Ev.xferData p f ∈ (send_loop k o stream endPos dfuel rfuel ofuel conn s).2.2.2 →
      p + 2 * k ≤ endPos ∧ f = mkDataPacket k stream p := by
  intro ofuel
  induction ofuel with
  | zero => intro conn s p f he; simp [send_loop] at he
  | succ n ih =>
    intro conn s p f he
    by_cases hb : o.stop s.si
    · rcases hdd : display_data_arr k o stream endPos dfuel 0 ⟨s.xi, s.si + 1, s.ri⟩
        with ⟨dres, s2, devs⟩
      have hdevs : ∀ p f, Ev.xferData p f ∈ devs →
          p + 2 * k ≤ endPos ∧ f = mkDataPacket k stream p := by
        intro p f hf
        have := display_data_frames k o stream endPos dfuel 0 ⟨s.xi, s.si + 1, s.ri⟩
          (by simpa using hdvd) p f
        rw [hdd] at this
        exact this hf
      cases dres with
      | fuelOut =>
        simp only [send_loop, hb, if_true, hdd] at he
        simp at he
        exact hdevs p f he
      | ok =>
        simp only [send_loop, hb, if_true, hdd] at he
        simp at he
        rcases he with he | he
        · exact hdevs p f he
        · exact ih _ _ p f he
      | err =>
        by_cases hb2 : o.stop s2.si
        · rcases hrr : reconnect_block o rfuel conn ⟨s2.xi, s2.si + 1, s2.ri⟩
            with ⟨rres, c2, s3, revs⟩
          have hrevs : Ev.xferData p f ∈ revs → False := by
            intro hf
            have := reconnect_block_noData o rfuel conn ⟨s2.xi, s2.si + 1, s2.ri⟩
              (Ev.xferData p f)
            rw [hrr] at this
            simpa [isDataEv] using this hf
          cases rres with
          | fuelOut =>
            simp only [send_loop, hb, if_true, hdd, hb2, hrr] at he
            simp at he
            rcases he with he | he
            · exact hdevs p f he
            · exact absurd he hrevs
          | done =>
            simp only [send_loop, hb, if_true, hdd, hb2, hrr] at he
            simp at he
            rcases he with he | he | he
            · exact hdevs p f he
            · exact absurd he hrevs
            · exact ih _ _ p f he
        · simp only [send_loop, hb, if_true, hdd, hb2, Bool.false_eq_true,
            if_false] at he
          simp at he
          rcases he with he | he
          · exact hdevs p f he
          · exact ih _ _ p f he
    · simp [send_loop, hb] at he

/-- C6: for every stream position `p` at which the streaming loop sends a
data frame, the frame is a 64-byte buffer whose first `2*BYTE_STEP` bytes
are the stream bytes `p .. p + 2*BYTE_STEP - 1` verbatim and whose
remaining bytes are zero; and because the loop only ever reads full
commands (`p + 2*BYTE_STEP ≤ endPos`), building the frame never reads a
stream byte at or past the declared end.  The hypotheses mirror
`send_packets`: the pass bound passed to `display_data_arr` is
`*data_arr + 2*BYTE_STEP*command_cnt`, i.e. `endPos = 2*k*cc`, and lies
within the stream. -/
theorem c6_data_frame_contents (k : Nat) (o : Oracle) (stream : List Byte)
    (endPos dfuel rfuel ofuel cc : Nat) (hcc : endPos = 2 * k * cc)
    (hlen : endPos ≤ stream.length) (hsz : 2 * k ≤ PACKET_SIZE) :
    ∀ p f, Ev.xferData p f ∈ (send_packets k o stream endPos dfuel rfuel ofuel).2.2.2 →
      p + 2 * k ≤ endPos ∧
      f = (stream.drop p).take (2 * k) ++ List.replicate (PACKET_SIZE - 2 * k) 0 ∧
      ((stream.drop p).take (2 * k)).length = 2 * k ∧
      f.length = PACKET_SIZE := by
  intro p f he
  have hdvd : (2 * k) ∣ endPos := ⟨cc, hcc⟩
  have hsend : Ev.xferData p f ∈
      (send_loop k o stream endPos dfuel rfuel ofuel true ⟨0, 0, 0⟩).2.2.2 := by
    rcases hr : send_loop k o stream endPos dfuel rfuel ofuel true ⟨0, 0, 0⟩
      with ⟨r, c, s, evs⟩
    cases r with
    | fuelOut => simpa [send_packets, hr] using he
    | finished =>
      simp only [send_packets, hr] at he
      simp only [List.mem_append] at he
      rcases he with he | he
      · exact he
      · cases c <;> simp at he
  have hmain := send_loop_data_frames k o stream endPos dfuel rfuel hdvd
    ofuel true ⟨0, 0, 0⟩ p f hsend
  have htake : ((stream.drop p).take (2 * k)).length = 2 * k := by
    rw [List.length_take, List.length_drop]
    omega
  refine ⟨hmain.1, ?_, htake, ?_⟩
  · simpa [mkDataPacket] using hmain.2
  · rw [hmain.2]
    simp only [mkDataPacket, List.length_append, List.length_replicate, htake]
    omega

/-- Witness for `c6_data_frame_contents`: in the one-command all-success
run with stream `[7,8]`, the single data frame carries bytes 7, 8 followed
by 62 zeros. -/
theorem c6_witness :
    0 + 2 * 1 ≤ 2 ∧
    mkDataPacket 1 [7, 8] 0 =
      (([7, 8] : List Byte).drop 0).take (2 * 1) ++
        List.replicate (PACKET_SIZE - 2 * 1) 0 ∧
    ((([7, 8] : List Byte).drop 0).take (2 * 1)).length = 2 * 1 ∧
    (mkDataPacket 1 [7, 8] 0).length = PACKET_SIZE :=
  c6_data_frame_contents 1 ⟨fun _ => 64, fun _ => true, fun _ => true⟩
    [7, 8] 2 2 1 1 1 (by decide) (by decide) (by decide)
    0 (mkDataPacket 1 [7, 8] 0) (by decide)

/- ### C7: after the loop observes the stop flag, it only cleans up -/

/-- Events that may still occur after the loop has observed `nonstop = 0`:
further flag reads and the final cleanup (interface release and close) —
in particular no control transfer and no sleep. -/
def quiescentEv : Ev → Bool
  | .stopRead _ => true
  | .releaseIface _ => true
  | .closeHandle => true
  | _ => false

/-- Scanning check: from the first `nonstop` read that returned 0 onwards,
all events of the list are quiescent. -/
def calmAfterStop : List Ev → Bool
  | [] => true
  | Ev.stopRead false :: rest => rest.all quiescentEv
  | _ :: rest => calmAfterStop rest

/-- Monotonicity of the stop flag over read indices: once a read returns 0,
every later read returns 0 (the signal handler only ever writes 0). -/
theorem stop_le_false (o : Oracle)
    (hmono : ∀ i, o.stop i = false → o.stop (i + 1) = false) :
    ∀ i j, i ≤ j → o.stop i = false → o.stop j = false := by
  intro i j hij hi
  induction j, hij using Nat.le_induction with
  | base => exact hi
  | succ m _ ihm => exact hmono m ihm

/-- The check skips over any head event other than a 0-valued flag read. -/
theorem calmAfterStop_cons (e : Ev) (l : List Ev) (h : e ≠ Ev.stopRead false) :
    calmAfterStop (e :: l) = calmAfterStop l := by
  cases e with
  | stopRead b =>
    cases b
    · exact absurd rfl h
    · rfl
  | xferHeader fr => rfl
  | xferData p f => rfl
  | sleepMs ms => rfl
  | releaseIface n => rfl
  | closeHandle => rfl
  | reconAttempt b => rfl

/-- Append lemma for the calm check. -/
theorem calmAfterStop_append (l1 l2 : List Ev)
    (h1 : calmAfterStop l1 = true)
    (h2 : Ev.stopRead false ∈ l1 → l2.all quiescentEv = true)
    (h3 : calmAfterStop l2 = true) :
    calmAfterStop (l1 ++ l2) = true := by
  induction l1 with
  | nil => exact h3
  | cons e t ih =>
    by_cases he : e = Ev.stopRead false
    · subst he
      have ht : t.all quiescentEv = true := h1
      have hl2 : l2.all quiescentEv = true := h2 (List.mem_cons_self _ _)
      show (t ++ l2).all quiescentEv = true
      simp [List.all_append, ht, hl2]
    · rw [List.cons_append, calmAfterStop_cons e _ he]
      rw [calmAfterStop_cons e t he] at h1
      exact ih h1 (fun hm => h2 (List.mem_cons_of_mem _ hm))

/-- If the next flag read returns 0, the outer loop's remaining trace is
entirely quiescent (it is just that one read; the final cleanup is added
by `send_packets` afterwards). -/
theorem send_loop_quiescent (k : Nat) (o : Oracle) (stream : List Byte)
    (endPos dfuel rfuel ofuel : Nat) (conn : Bool) (s : St)
    (h : o.stop s.si = false) :
    (send_loop k o stream endPos dfuel rfuel ofuel conn s).2.2.2.all
      quiescentEv = true := by
  cases ofuel with
  | zero => simp [send_loop]
  | succ n => simp [send_loop, h, quiescentEv]

/-- Within a pass, once a flag read returns 0 the pass ends at once, so the
pass trace itself passes the calm check. -/
theorem display_calm (k : Nat) (o : Oracle) (stream : List Byte) (endPos : Nat) :
    ∀ fuel pos s,
      calmAfterStop (display_data_arr k o stream endPos fuel pos s).2.2 = true := by
  intro fuel
  induction fuel with
  | zero => intro pos s; rfl
  | succ n ih =>
    intro pos s
    by_cases hp : pos < endPos
    · by_cases hb : o.stop s.si
      · by_cases h1 : o.xfer s.xi = (PACKET_SIZE : Int)
        · by_cases h2 : o.xfer (s.xi + 1) = (PACKET_SIZE : Int)
          · simp only [display_data_arr, hp, if_true, hb, h1, h2]
            rw [calmAfterStop_cons _ _ (by simp), calmAfterStop_cons _ _ (by simp),
              calmAfterStop_cons _ _ (by simp), calmAfterStop_cons _ _ (by simp)]
            exact ih _ _
          · simp only [display_data_arr, hp, if_true, hb, h1, h2,
              Bool.false_eq_true, if_false]
            rw [calmAfterStop_cons _ _ (by simp), calmAfterStop_cons _ _ (by simp),
              calmAfterStop_cons _ _ (by simp)]
            rfl
        · simp only [display_data_arr, hp, if_true, hb, h1, Bool.false_eq_true,
            if_false]
          rw [calmAfterStop_cons _ _ (by simp), calmAfterStop_cons _ _ (by simp)]
          rfl
      · simp only [display_data_arr, hp, if_true, hb, Bool.false_eq_true,
          if_false]
        rfl
    · simp only [display_data_arr, hp, if_false]
      rfl

/-- A 0-valued flag read inside a pass trace exhibits a read index, below
the pass's final read counter, at which the flag was 0. -/
theorem display_false_read (k : Nat) (o : Oracle) (stream : List Byte)
    (endPos : Nat) :
    ∀ fuel pos s,
      Ev.stopRead false ∈ (display_data_arr k o stream endPos fuel pos s).2.2 →
      ∃ i, i < (display_data_arr k o stream endPos fuel pos s).2.1.si ∧
        o.stop i = false := by
  intro fuel
  induction fuel with
  | zero => intro pos s he; simp [display_data_arr] at he
  | succ n ih =>
    intro pos s he
    by_cases hp : pos < endPos
    · by_cases hb : o.stop s.si
      · by_cases h1 : o.xfer s.xi = (PACKET_SIZE : Int)
        · by_cases h2 : o.xfer (s.xi + 1) = (PACKET_SIZE : Int)
          · simp only [display_data_arr, hp, if_true, hb, h1, h2] at he ⊢
            simp at he
            exact ih _ _ he
          · simp [display_data_arr, hp, hb, h1, h2] at he
        · simp [display_data_arr, hp, hb, h1] at he
      · simp only [display_data_arr, hp, if_true, hb, Bool.false_eq_true,
          if_false] at he ⊢
        exact ⟨s.si, by simp, by simpa using hb⟩
    · simp [display_data_arr, hp] at he

/-- The reconnection loop's trace passes the calm check. -/
theorem reconnect_loop_calm (o : Oracle) :
    ∀ fuel conn s,
      calmAfterStop (reconnect_loop o fuel conn s).2.2.2 = true := by
  intro fuel
  induction fuel with
  | zero => intro conn s; rfl
  | succ n ih =>
    intro conn s
    by_cases hb : o.stop s.si
    · by_cases hc : conn
      · simp only [reconnect_loop, hb, if_true, hc]
        rfl
      · by_cases hk : o.recon s.ri
        · simp only [reconnect_loop, hb, if_true, hc, Bool.false_eq_true,
            if_false, hk]
          rw [calmAfterStop_cons _ _ (by simp), calmAfterStop_cons _ _ (by simp)]
          exact ih _ _
        · simp only [reconnect_loop, hb, if_true, hc, Bool.false_eq_true,
            if_false, hk]
          rw [calmAfterStop_cons _ _ (by simp), calmAfterStop_cons _ _ (by simp),
            calmAfterStop_cons _ _ (by simp)]
          exact ih _ _
    · simp only [reconnect_loop, hb, Bool.false_eq_true, if_false]
      rfl

/-- A 0-valued flag read inside the reconnection loop's trace exhibits a
read index, below the loop's final read counter, at which the flag was 0. -/
theorem reconnect_loop_false_read (o : Oracle) :
    ∀ fuel conn s,
      Ev.stopRead false ∈ (reconnect_loop o fuel conn s).2.2.2 →
      ∃ i, i < (reconnect_loop o fuel conn s).2.2.1.si ∧ o.stop i = false := by
  intro fuel
  induction fuel with
  | zero => intro conn s he; simp [reconnect_loop] at he
  | succ n ih =>
    intro conn s he
    by_cases hb : o.stop s.si
    · by_cases hc : conn
      · simp [reconnect_loop, hb, hc] at he
      · by_cases hk : o.recon s.ri
        · simp only [reconnect_loop, hb, if_true, hc, Bool.false_eq_true,
            if_false, hk] at he ⊢
          simp at he
          exact ih _ _ he
        · simp only [reconnect_loop, hb, if_true, hc, Bool.false_eq_true,
            if_false, hk] at he ⊢
          simp at he
          exact ih _ _ he
    · simp only [reconnect_loop, hb, Bool.false_eq_true, if_false] at he ⊢
      exact ⟨s.si, by simp, by simpa using hb⟩

/-- The reconnection block's trace (cleanup, 1 s wait, loop) passes the
calm check. -/
theorem reconnect_block_calm (o : Oracle) (rfuel : Nat) (conn : Bool) (s : St) :
    calmAfterStop (reconnect_block o rfuel conn s).2.2.2 = true := by
  cases conn
  · simp only [reconnect_block, Bool.false_eq_true, if_false, List.nil_append]
    rw [calmAfterStop_cons _ _ (by simp)]
    exact reconnect_loop_calm o rfuel false s
  · simp only [reconnect_block, if_true]
    rw [List.cons_append, List.cons_append, List.cons_append, List.nil_append,
      calmAfterStop_cons _ _ (by simp), calmAfterStop_cons _ _ (by simp),
      calmAfterStop_cons _ _ (by simp), calmAfterStop_cons _ _ (by simp)]
    exact reconnect_loop_calm o rfuel false s

/-- A 0-valued flag read inside the reconnection block's trace exhibits a
read index, below the block's final read counter, at which the flag was 0. -/
theorem reconnect_block_false_read (o : Oracle) (rfuel : Nat) (conn : Bool)
    (s : St) :
    Ev.stopRead false ∈ (reconnect_block o rfuel conn s).2.2.2 →
    ∃ i, i < (reconnect_block o rfuel conn s).2.2.1.si ∧ o.stop i = false := by
  intro he
  have hl : Ev.stopRead false ∈ (reconnect_loop o rfuel false s).2.2.2 := by
    cases conn <;> simp [reconnect_block] at he <;> exact he
  have := reconnect_loop_false_read o rfuel false s hl
  simpa [reconnect_block] using this

/-- Main C7 lemma: with a monotone stop flag (writes are only 1 → 0), from
the first flag read that returns 0 the outer loop's whole remaining trace
is quiescent: no control transfer, no sleep, no reconnect attempt. -/
theorem send_loop_calm (k : Nat) (o : Oracle) (stream : List Byte)
    (endPos dfuel rfuel : Nat)
    (hmono : ∀ i, o.stop i = false → o.stop (i + 1) = false) :
    ∀ ofuel conn s,
      calmAfterStop (send_loop k o stream endPos dfuel rfuel ofuel conn s).2.2.2 =
        true := by
  intro ofuel
  induction ofuel with
  | zero => intro conn s; rfl
  | succ n ih =>
    intro conn s
    by_cases hb : o.stop s.si
    · rcases hdd : display_data_arr k o stream endPos dfuel 0 ⟨s.xi, s.si + 1, s.ri⟩
        with ⟨dres, s2, devs⟩
      have hcalmd : calmAfterStop devs = true := by
        have := display_calm k o stream endPos dfuel 0 ⟨s.xi, s.si + 1, s.ri⟩
        rw [hdd] at this
        exact this
      have hfr : Ev.stopRead false ∈ devs → o.stop s2.si = false := by
        intro hm
        have h := display_false_read k o stream endPos dfuel 0 ⟨s.xi, s.si + 1, s.ri⟩
        rw [hdd] at h
        obtain ⟨i, hlt, hfalse⟩ := h hm
        exact stop_le_false o hmono i s2.si (Nat.le_of_lt hlt) hfalse
      cases dres with
      | fuelOut =>
        simp only [send_loop, hb, if_true, hdd]
        rw [calmAfterStop_cons _ _ (by simp)]
        exact hcalmd
      | ok =>
        simp only [send_loop, hb, if_true, hdd, List.cons_append]
        rw [calmAfterStop_cons _ _ (by simp)]
        refine calmAfterStop_append _ _ hcalmd ?_ (ih _ _)
        intro hm
        exact send_loop_quiescent k o stream endPos dfuel rfuel n conn s2 (hfr hm)
      | err =>
        by_cases hb2 : o.stop s2.si
        · rcases hrr : reconnect_block o rfuel conn ⟨s2.xi, s2.si + 1, s2.ri⟩
            with ⟨rres, c2, s3, revs⟩
          have hfr2 : Ev.stopRead false ∈ devs → False := by
            intro hm
            rw [hfr hm] at hb2
            exact absurd hb2 (by simp)
          have hcalmr : calmAfterStop revs = true := by
            have := reconnect_block_calm o rfuel conn ⟨s2.xi, s2.si + 1, s2.ri⟩
            rw [hrr] at this
            exact this
          have hfrr : Ev.stopRead false ∈ revs → o.stop s3.si = false := by
            intro hm
            have h := reconnect_block_false_read o rfuel conn ⟨s2.xi, s2.si + 1, s2.ri⟩
            rw [hrr] at h
            obtain ⟨i, hlt, hfalse⟩ := h hm
            exact stop_le_false o hmono i s3.si (Nat.le_of_lt hlt) hfalse
          cases rres with
          | fuelOut =>
            simp only [send_loop, hb, if_true, hdd, hb2, hrr, List.cons_append]
            rw [calmAfterStop_cons _ _ (by simp)]
            refine calmAfterStop_append _ _ hcalmd
              (fun hm => absurd hm hfr2) ?_
            rw [calmAfterStop_cons _ _ (by simp)]
            exact hcalmr
          | done =>
            simp only [send_loop, hb, if_true, hdd, hb2, hrr, List.cons_append,
              List.append_assoc]
            rw [calmAfterStop_cons _ _ (by simp)]
            refine calmAfterStop_append _ _ hcalmd
              (fun hm => absurd hm hfr2) ?_
            rw [calmAfterStop_cons _ _ (by simp)]
            refine calmAfterStop_append _ _ hcalmr ?_ (ih _ _)
            intro hm
            exact send_loop_quiescent k o stream endPos dfuel rfuel n c2 s3 (hfrr hm)
        · simp only [send_loop, hb, if_true, hdd, hb2, Bool.false_eq_true,
            if_false, List.cons_append]
          rw [calmAfterStop_cons _ _ (by simp)]
          have hnext : o.stop (s2.si + 1) = false :=
            hmono s2.si (by simpa using hb2)
          have hq : (send_loop k o stream endPos dfuel rfuel n conn
              ⟨s2.xi, s2.si + 1, s2.ri⟩).2.2.2.all quiescentEv = true :=
            send_loop_quiescent k o stream endPos dfuel rfuel n conn
              ⟨s2.xi, s2.si + 1, s2.ri⟩ hnext
          refine calmAfterStop_append _ _ hcalmd ?_ ?_
          · intro hm
            simp [quiescentEv, hq]
          · show (send_loop k o stream endPos dfuel rfuel n conn
              ⟨s2.xi, s2.si + 1, s2.ri⟩).2.2.2.all quiescentEv = true
            exact hq
    · simp only [send_loop, hb, Bool.false_eq_true, if_false]
      rfl

/-- C7: once the loop observes `nonstop = 0` (with the flag monotone: the
signal handler only clears it), no further USB transfer is initiated and no
further sleep or reconnect attempt happens — everything after that read is
quiescent — and when `send_packets` returns with the handle still held, the
very last actions of the run are `libusb_release_interface(·, 0)`,
`libusb_release_interface(·, 1)`, `libusb_close`. -/
theorem c7_stop_observed_quiescence (k : Nat) (o : Oracle) (stream : List Byte)
    (endPos dfuel rfuel ofuel : Nat)
    (hmono : ∀ i, o.stop i = false → o.stop (i + 1) = false) :
    calmAfterStop (send_packets k o stream endPos dfuel rfuel ofuel).2.2.2 = true ∧
    ((send_packets k o stream endPos dfuel rfuel ofuel).1 = SRes.finished →
      (send_packets k o stream endPos dfuel rfuel ofuel).2.1 = true →
      ∃ pre, (send_packets k o stream endPos dfuel rfuel ofuel).2.2.2 =
        pre ++ [Ev.releaseIface 0, Ev.releaseIface 1, Ev.closeHandle]) := by
  have hcalm := send_loop_calm k o stream endPos dfuel rfuel hmono ofuel true ⟨0, 0, 0⟩
  rcases hr : send_loop k o stream endPos dfuel rfuel ofuel true ⟨0, 0, 0⟩
    with ⟨r, c, s, evs⟩
  rw [hr] at hcalm
  cases r with
  | fuelOut =>
    constructor
    · simpa [send_packets, hr] using hcalm
    · intro h1
      simp [send_packets, hr] at h1
  | finished =>
    constructor
    · simp only [send_packets, hr]
      refine calmAfterStop_append _ _ hcalm ?_ ?_
      · intro hm
        cases c <;> simp [quiescentEv]
      · cases c <;> rfl
    · intro h1 h2
      simp only [send_packets, hr] at h2 ⊢
      rw [h2]
      exact ⟨evs, rfl⟩

/-- Witness for `c7_stop_observed_quiescence`: one successful pass, then
the flag is observed as 0 at its third read; the run finishes and ends
with release 0, release 1, close. -/
theorem c7_witness :
    calmAfterStop (send_packets 1 ⟨fun _ => 64, fun i => decide (i < 2), fun _ => true⟩
        [7, 8] 2 2 1 3).2.2.2 = true ∧
    ((send_packets 1 ⟨fun _ => 64, fun i => decide (i < 2), fun _ => true⟩
        [7, 8] 2 2 1 3).1 = SRes.finished →
      (send_packets 1 ⟨fun _ => 64, fun i => decide (i < 2), fun _ => true⟩
        [7, 8] 2 2 1 3).2.1 = true →
      ∃ pre, (send_packets 1 ⟨fun _ => 64, fun i => decide (i < 2), fun _ => true⟩
          [7, 8] 2 2 1 3).2.2.2 =
        pre ++ [Ev.releaseIface 0, Ev.releaseIface 1, Ev.closeHandle]) :=
  c7_stop_observed_quiescence 1 ⟨fun _ => 64, fun i => decide (i < 2), fun _ => true⟩
    [7, 8] 2 2 1 3 (by intro i h; simp at h ⊢; omega)

/- ### C1: what position streaming resumes from after a reconnect -/

/-- Scanning check: after every reconnect attempt in the trace, the first
data frame transferred afterwards (if any) is built from stream position
0 — the pass restarts at `*data_arr`, it does not resume mid-stream. -/
def reconResetOk : List Ev → Bool
  | [] => true
  | Ev.reconAttempt _ :: rest =>
    ((firstDataPos rest).getD 0 == 0) && reconResetOk rest
  | _ :: rest => reconResetOk rest

/-- The check skips over any non-attempt head event. -/
theorem reconResetOk_cons (e : Ev) (l : List Ev)
    (h : ∀ b, e ≠ Ev.reconAttempt b) :
    reconResetOk (e :: l) = reconResetOk l := by
  cases e with
  | reconAttempt b => exact absurd rfl (h b)
  | stopRead b => rfl
  | xferHeader fr => rfl
  | xferData p f => rfl
  | sleepMs ms => rfl
  | releaseIface n => rfl
  | closeHandle => rfl

/-- `firstDataPos` of an append, when the first part has no data event. -/
theorem firstDataPos_append_none (l1 l2 : List Ev)
    (h : firstDataPos l1 = none) :
    firstDataPos (l1 ++ l2) = firstDataPos l2 := by
  induction l1 with
  | nil => rfl
  | cons e t ih =>
    cases e with
    | xferData p f => simp [firstDataPos] at h
    | stopRead b => exact ih (by simpa [firstDataPos] using h)
    | xferHeader fr => exact ih (by simpa [firstDataPos] using h)
    | sleepMs ms => exact ih (by simpa [firstDataPos] using h)
    | releaseIface n => exact ih (by simpa [firstDataPos] using h)
    | closeHandle => exact ih (by simpa [firstDataPos] using h)
    | reconAttempt b => exact ih (by simpa [firstDataPos] using h)

/-- `firstDataPos` of an append, when the first part already has one. -/
theorem firstDataPos_append_some (l1 l2 : List Ev) (p : Nat)
    (h : firstDataPos l1 = some p) :
    firstDataPos (l1 ++ l2) = some p := by
  induction l1 with
  | nil => simp [firstDataPos] at h
  | cons e t ih =>
    cases e with
    | xferData q f => simpa [firstDataPos] using h
    | stopRead b => exact ih (by simpa [firstDataPos] using h)
    | xferHeader fr => exact ih (by simpa [firstDataPos] using h)
    | sleepMs ms => exact ih (by simpa [firstDataPos] using h)
    | releaseIface n => exact ih (by simpa [firstDataPos] using h)
    | closeHandle => exact ih (by simpa [firstDataPos] using h)
    | reconAttempt b => exact ih (by simpa [firstDataPos] using h)

/-- A list without data events has no first data position. -/
theorem firstDataPos_eq_none (l : List Ev) (h : ∀ e ∈ l, isDataEv e = false) :
    firstDataPos l = none := by
  induction l with
  | nil => rfl
  | cons e t ih =>
    have he := h e (List.mem_cons_self e t)
    have ht := fun e hm => h e (List.mem_cons_of_mem _ hm)
    cases e with
    | xferData p f => simp [isDataEv] at he
    | stopRead b => exact ih ht
    | xferHeader fr => exact ih ht
    | sleepMs ms => exact ih ht
    | releaseIface n => exact ih ht
    | closeHandle => exact ih ht
    | reconAttempt b => exact ih ht

/-- Append lemma: a data-free prefix (which may contain reconnect attempts,
e.g. the reconnection block's trace) can be prepended when the suffix
passes the check and starts its data (if any) at position 0. -/
theorem reconResetOk_append_left (l1 l2 : List Ev)
    (hnd : firstDataPos l1 = none) (h2 : reconResetOk l2 = true)
    (hfd : (firstDataPos l2).getD 0 = 0) :
    reconResetOk (l1 ++ l2) = true := by
  induction l1 with
  | nil => exact h2
  | cons e t ih =>
    have hne : firstDataPos t = none := by
      cases e with
      | xferData p f => simp [firstDataPos] at hnd
      | stopRead b => simpa [firstDataPos] using hnd
      | xferHeader fr => simpa [firstDataPos] using hnd
      | sleepMs ms => simpa [firstDataPos] using hnd
      | releaseIface n => simpa [firstDataPos] using hnd
      | closeHandle => simpa [firstDataPos] using hnd
      | reconAttempt b => simpa [firstDataPos] using hnd
    by_cases ha : ∃ b, e = Ev.reconAttempt b
    · obtain ⟨b, rfl⟩ := ha
      show (((firstDataPos (t ++ l2)).getD 0 == 0) && reconResetOk (t ++ l2)) = true
      rw [firstDataPos_append_none t l2 hne]
      simp only [Bool.and_eq_true, beq_iff_eq]
      exact ⟨hfd, ih hne⟩
    · rw [List.cons_append, reconResetOk_cons e _ (by
        intro b hb
        exact ha ⟨b, hb⟩)]
      exact ih hne

/-- Append lemma: a checked prefix stays checked when a data-free,
attempt-free suffix (the final cleanup) is appended. -/
theorem reconResetOk_append_right (l1 l2 : List Ev)
    (h1 : reconResetOk l1 = true) (hnd2 : firstDataPos l2 = none)
    (h2 : reconResetOk l2 = true) :
    reconResetOk (l1 ++ l2) = true := by
  induction l1 with
  | nil => exact h2
  | cons e t ih =>
    by_cases ha : ∃ b, e = Ev.reconAttempt b
    · obtain ⟨b, rfl⟩ := ha
      have h1' : ((firstDataPos t).getD 0 == 0) = true ∧ reconResetOk t = true := by
        simpa [reconResetOk, Bool.and_eq_true] using h1
      show (((firstDataPos (t ++ l2)).getD 0 == 0) && reconResetOk (t ++ l2)) = true
      simp only [Bool.and_eq_true, beq_iff_eq]
      constructor
      · rcases hft : firstDataPos t with _ | p
        · rw [firstDataPos_append_none t l2 hft, hnd2]
          rfl
        · rw [firstDataPos_append_some t l2 p hft]
          have := h1'.1
          rw [hft] at this
          simpa using this
      · exact ih h1'.2
    · have hne : ∀ b, e ≠ Ev.reconAttempt b := fun b hb => ha ⟨b, hb⟩
      rw [List.cons_append, reconResetOk_cons e _ hne]
      rw [reconResetOk_cons e t hne] at h1
      exact ih h1

/-- The first data frame of a pass starting at `pos` (if any) is built at
`pos`. -/
theorem display_firstData (k : Nat) (o : Oracle) (stream : List Byte)
    (endPos : Nat) :
    ∀ fuel pos s,
      firstDataPos (display_data_arr k o stream endPos fuel pos s).2.2 = none ∨
      firstDataPos (display_data_arr k o stream endPos fuel pos s).2.2 =
        some pos := by
  intro fuel
  induction fuel with
  | zero => intro pos s; left; rfl
  | succ n ih =>
    intro pos s
    by_cases hp : pos < endPos
    · by_cases hb : o.stop s.si
      · by_cases h1 : o.xfer s.xi = (PACKET_SIZE : Int)
        · by_cases h2 : o.xfer (s.xi + 1) = (PACKET_SIZE : Int)
          · right
            simp only [display_data_arr, hp, if_true, hb, h1, h2]
            rfl
          · right
            simp only [display_data_arr, hp, if_true, hb, h1, h2,
              Bool.false_eq_true, if_false]
            rfl
        · left
          simp only [display_data_arr, hp, if_true, hb, h1,
            Bool.false_eq_true, if_false]
          rfl
      · left
        simp only [display_data_arr, hp, if_true, hb, Bool.false_eq_true,
          if_false]
        rfl
    · left
      simp only [display_data_arr, hp, if_false]
      rfl

/-- The first data frame of the whole outer loop (if any) is built at
position 0: every pass is invoked on `*data_arr`. -/
theorem send_loop_firstData (k : Nat) (o : Oracle) (stream : List Byte)
    (endPos dfuel rfuel : Nat) :
    ∀ ofuel conn s,
      firstDataPos (send_loop k o stream endPos dfuel rfuel ofuel conn s).2.2.2 =
        none ∨
      firstDataPos (send_loop k o stream endPos dfuel rfuel ofuel conn s).2.2.2 =
        some 0 := by
  intro ofuel
  induction ofuel with
  | zero => intro conn s; left; rfl
  | succ n ih =>
    intro conn s
    by_cases hb : o.stop s.si
    · rcases hdd : display_data_arr k o stream endPos dfuel 0 ⟨s.xi, s.si + 1, s.ri⟩
        with ⟨dres, s2, devs⟩
      have hfd : firstDataPos devs = none ∨ firstDataPos devs = some 0 := by
        have := display_firstData k o stream endPos dfuel 0 ⟨s.xi, s.si + 1, s.ri⟩
        rw [hdd] at this
        exact this
      cases dres with
      | fuelOut =>
        simp only [send_loop, hb, if_true, hdd]
        show firstDataPos (Ev.stopRead true :: devs) = none ∨
          firstDataPos (Ev.stopRead true :: devs) = some 0
        simpa [firstDataPos] using hfd
      | ok =>
        simp only [send_loop, hb, if_true, hdd, List.cons_append]
        show firstDataPos (Ev.stopRead true :: (devs ++ _)) = none ∨ _
        rcases hfd with hn | h0
        · rw [show firstDataPos (Ev.stopRead true :: (devs ++
            (send_loop k o stream endPos dfuel rfuel n conn s2).2.2.2)) =
            firstDataPos (devs ++
              (send_loop k o stream endPos dfuel rfuel n conn s2).2.2.2) from rfl,
            firstDataPos_append_none _ _ hn]
          exact ih conn s2
        · right
          rw [show firstDataPos (Ev.stopRead true :: (devs ++
            (send_loop k o stream endPos dfuel rfuel n conn s2).2.2.2)) =
            firstDataPos (devs ++
              (send_loop k o stream endPos dfuel rfuel n conn s2).2.2.2) from rfl,
            firstDataPos_append_some _ _ 0 h0]
      | err =>
        by_cases hb2 : o.stop s2.si
        · rcases hrr : reconnect_block o rfuel conn ⟨s2.xi, s2.si + 1, s2.ri⟩
            with ⟨rres, c2, s3, revs⟩
          have hnr : firstDataPos revs = none := by
            apply firstDataPos_eq_none
            intro e hm
            have := reconnect_block_noData o rfuel conn ⟨s2.xi, s2.si + 1, s2.ri⟩ e
            rw [hrr] at this
            exact this hm
          cases rres with
          | fuelOut =>
            simp only [send_loop, hb, if_true, hdd, hb2, hrr, List.cons_append]
            rcases hfd with hn | h0
            · rw [show firstDataPos (Ev.stopRead true :: (devs ++
                Ev.stopRead true :: revs)) =
                firstDataPos (devs ++ Ev.stopRead true :: revs) from rfl,
                firstDataPos_append_none _ _ hn]
              left
              simpa [firstDataPos] using hnr
            · right
              rw [show firstDataPos (Ev.stopRead true :: (devs ++
                Ev.stopRead true :: revs)) =
                firstDataPos (devs ++ Ev.stopRead true :: revs) from rfl,
                firstDataPos_append_some _ _ 0 h0]
          | done =>
            simp only [send_loop, hb, if_true, hdd, hb2, hrr, List.cons_append,
              List.append_assoc]
            rcases hfd with hn | h0
            · rw [show firstDataPos (Ev.stopRead true :: (devs ++
                (Ev.stopRead true :: (revs ++
                  (send_loop k o stream endPos dfuel rfuel n c2 s3).2.2.2)))) =
                firstDataPos (devs ++ (Ev.stopRead true :: (revs ++
                  (send_loop k o stream endPos dfuel rfuel n c2 s3).2.2.2)))
                from rfl,
                firstDataPos_append_none _ _ hn,
                show firstDataPos (Ev.stopRead true :: (revs ++
                  (send_loop k o stream endPos dfuel rfuel n c2 s3).2.2.2)) =
                firstDataPos (revs ++
                  (send_loop k o stream endPos dfuel rfuel n c2 s3).2.2.2)
                from rfl,
                firstDataPos_append_none _ _ hnr]
              exact ih c2 s3
            · right
              rw [show firstDataPos (Ev.stopRead true :: (devs ++
                (Ev.stopRead true :: (revs ++
                  (send_loop k o stream endPos dfuel rfuel n c2 s3).2.2.2)))) =
                firstDataPos (devs ++ (Ev.stopRead true :: (revs ++
                  (send_loop k o stream endPos dfuel rfuel n c2 s3).2.2.2)))
                from rfl,
                firstDataPos_append_some _ _ 0 h0]
        · simp only [send_loop, hb, if_true, hdd, hb2, Bool.false_eq_true,
            if_false, List.cons_append]
          rcases hfd with hn | h0
          · rw [show firstDataPos (Ev.stopRead true :: (devs ++
              Ev.stopRead false ::
                (send_loop k o stream endPos dfuel rfuel n conn
                  ⟨s2.xi, s2.si + 1, s2.ri⟩).2.2.2)) =
              firstDataPos (devs ++ Ev.stopRead false ::
                (send_loop k o stream endPos dfuel rfuel n conn
                  ⟨s2.xi, s2.si + 1, s2.ri⟩).2.2.2) from rfl,
              firstDataPos_append_none _ _ hn]
            simpa [firstDataPos] using ih conn ⟨s2.xi, s2.si + 1, s2.ri⟩
          · right
            rw [show firstDataPos (Ev.stopRead true :: (devs ++
              Ev.stopRead false ::
                (send_loop k o stream endPos dfuel rfuel n conn
                  ⟨s2.xi, s2.si + 1, s2.ri⟩).2.2.2)) =
              firstDataPos (devs ++ Ev.stopRead false ::
                (send_loop k o stream endPos dfuel rfuel n conn
                  ⟨s2.xi, s2.si + 1, s2.ri⟩).2.2.2) from rfl,
              firstDataPos_append_some _ _ 0 h0]
    · simp only [send_loop, hb, Bool.false_eq_true, if_false]
      left
      rfl

/-- Append lemma: an attempt-free prefix can be dropped from the check. -/
theorem reconResetOk_append_noAtt (l1 l2 : List Ev)
    (h : ∀ e ∈ l1, ∀ b, e ≠ Ev.reconAttempt b) :
    reconResetOk (l1 ++ l2) = reconResetOk l2 := by
  induction l1 with
  | nil => rfl
  | cons e t ih =>
    rw [List.cons_append, reconResetOk_cons e _ (h e (List.mem_cons_self e t))]
    exact ih (fun e hm => h e (List.mem_cons_of_mem _ hm))

/-- A pass trace contains no reconnect attempt. -/
theorem display_noAttempt (k : Nat) (o : Oracle) (stream : List Byte)
    (endPos fuel pos : Nat) (s : St) :
    ∀ e ∈ (display_data_arr k o stream endPos fuel pos s).2.2,
      ∀ b, e ≠ Ev.reconAttempt b := by
  intro e hm b
  rcases display_ev_shape k o stream endPos fuel pos s e hm with
    ⟨b', rfl⟩ | rfl | ⟨p, f, rfl⟩ | rfl <;> simp

/-- Main C1 lemma: the outer loop's trace passes the restart check. -/
theorem send_loop_reconReset (k : Nat) (o : Oracle) (stream : List Byte)
    (endPos dfuel rfuel : Nat) :
    ∀ ofuel conn s,
      reconResetOk (send_loop k o stream endPos dfuel rfuel ofuel conn s).2.2.2 =
        true := by
  intro ofuel
  induction ofuel with
  | zero => intro conn s; rfl
  | succ n ih =>
    intro conn s
    by_cases hb : o.stop s.si
    · rcases hdd : display_data_arr k o stream endPos dfuel 0 ⟨s.xi, s.si + 1, s.ri⟩
        with ⟨dres, s2, devs⟩
      have hna : ∀ e ∈ devs, ∀ b, e ≠ Ev.reconAttempt b := by
        intro e hm
        have := display_noAttempt k o stream endPos dfuel 0 ⟨s.xi, s.si + 1, s.ri⟩ e
        rw [hdd] at this
        exact this hm
      cases dres with
      | fuelOut =>
        simp only [send_loop, hb, if_true, hdd]
        rw [reconResetOk_cons _ _ (by simp),
          show (devs : List Ev) = devs ++ [] from (List.append_nil devs).symm,
          reconResetOk_append_noAtt devs [] hna]
        rfl
      | ok =>
        simp only [send_loop, hb, if_true, hdd, List.cons_append]
        rw [reconResetOk_cons _ _ (by simp), reconResetOk_append_noAtt devs _ hna]
        exact ih conn s2
      | err =>
        by_cases hb2 : o.stop s2.si
        · rcases hrr : reconnect_block o rfuel conn ⟨s2.xi, s2.si + 1, s2.ri⟩
            with ⟨rres, c2, s3, revs⟩
          have hnr : firstDataPos revs = none := by
            apply firstDataPos_eq_none
            intro e hm
            have := reconnect_block_noData o rfuel conn ⟨s2.xi, s2.si + 1, s2.ri⟩ e
            rw [hrr] at this
            exact this hm
          cases rres with
          | fuelOut =>
            simp only [send_loop, hb, if_true, hdd, hb2, hrr, List.cons_append]
            rw [reconResetOk_cons _ _ (by simp),
              reconResetOk_append_noAtt devs _ hna,
              reconResetOk_cons _ _ (by simp),
              show (revs : List Ev) = revs ++ [] from (List.append_nil revs).symm,
              reconResetOk_append_left revs [] hnr rfl rfl]
          | done =>
            simp only [send_loop, hb, if_true, hdd, hb2, hrr, List.cons_append,
              List.append_assoc]
            rw [reconResetOk_cons _ _ (by simp),
              reconResetOk_append_noAtt devs _ hna,
              reconResetOk_cons _ _ (by simp)]
            refine reconResetOk_append_left revs _ hnr (ih c2 s3) ?_
            rcases send_loop_firstData k o stream endPos dfuel rfuel n c2 s3
              with hn | h0
            · rw [hn]; rfl
            · rw [h0]; rfl
        · simp only [send_loop, hb, if_true, hdd, hb2, Bool.false_eq_true,
            if_false, List.cons_append]
          rw [reconResetOk_cons _ _ (by simp),
            reconResetOk_append_noAtt devs _ hna,
            reconResetOk_cons _ _ (by simp)]
          exact ih conn ⟨s2.xi, s2.si + 1, s2.ri⟩
    · simp only [send_loop, hb, Bool.false_eq_true, if_false]
      rfl

/-- Positional reading of the check: after any reconnect attempt, the first
data frame transferred afterwards is from position 0. -/
theorem reconResetOk_split (l : List Ev) (h : reconResetOk l = true) :
    ∀ pre b post p, l = pre ++ Ev.reconAttempt b :: post →
      firstDataPos post = some p → p = 0 := by
  induction l with
  | nil =>
    intro pre b post p hl
    exact absurd hl.symm (by simp)
  | cons e t ih =>
    intro pre b post p hl hp
    cases pre with
    | nil =>
      simp only [List.nil_append, List.cons.injEq] at hl
      obtain ⟨rfl, rfl⟩ := hl
      have h' : ((firstDataPos t).getD 0 == 0) = true ∧
          reconResetOk t = true := by
        simpa [reconResetOk, Bool.and_eq_true] using h
      have h2 := h'.1
      rw [hp] at h2
      simpa using h2
    | cons e' pre' =>
      simp only [List.cons_append, List.cons.injEq] at hl
      obtain ⟨rfl, hl'⟩ := hl
      have ht : reconResetOk t = true := by
        by_cases ha : ∃ b', e = Ev.reconAttempt b'
        · obtain ⟨b', rfl⟩ := ha
          have hsplit : ((firstDataPos t).getD 0 == 0) = true ∧
              reconResetOk t = true := by
            simpa [reconResetOk, Bool.and_eq_true] using h
          exact hsplit.2
        · rw [reconResetOk_cons e t (fun b' hb' => ha ⟨b', hb'⟩)] at h
          exact h
      exact ih ht pre' b post p hl' hp

/-- C1 amended: reconnection does not preserve the stream position.  On
re-entry after any reconnect attempt, `send_packets` passes `*data_arr`
to `display_data_arr` again, so the first data frame sent after the
attempt is built from stream position 0: the whole stream is replayed from
its start (each frame still preceded by a fresh header), instead of
resuming at the frame whose transfer failed. -/
theorem c1_amended_restart_from_zero (k : Nat) (o : Oracle) (stream : List Byte)
    (endPos dfuel rfuel ofuel : Nat) :
    reconResetOk (send_packets k o stream endPos dfuel rfuel ofuel).2.2.2 = true ∧
    (∀ pre b post p,
      (send_packets k o stream endPos dfuel rfuel ofuel).2.2.2 =
        pre ++ Ev.reconAttempt b :: post →
      firstDataPos post = some p → p = 0) := by
  have hok : reconResetOk (send_packets k o stream endPos dfuel rfuel ofuel).2.2.2 =
      true := by
    have hmain := send_loop_reconReset k o stream endPos dfuel rfuel ofuel true
      ⟨0, 0, 0⟩
    rcases hr : send_loop k o stream endPos dfuel rfuel ofuel true ⟨0, 0, 0⟩
      with ⟨r, c, s, evs⟩
    rw [hr] at hmain
    cases r with
    | fuelOut => simpa [send_packets, hr] using hmain
    | finished =>
      simp only [send_packets, hr]
      refine reconResetOk_append_right evs _ hmain ?_ ?_
      · cases c <;> rfl
      · cases c <;> rfl
  exact ⟨hok, fun pre b post p hl hp =>
    reconResetOk_split _ hok pre b post p hl hp⟩

/-- Witness for `c1_amended_restart_from_zero` at the replay
counterexample's input. -/
theorem c1_amended_witness :
    reconResetOk (send_packets 1
      ⟨fun i => if i = 3 then 0 else 64, fun _ => true, fun _ => true⟩
      [1, 2, 3, 4] 4 3 3 2).2.2.2 = true :=
  (c1_amended_restart_from_zero 1
    ⟨fun i => if i = 3 then 0 else 64, fun _ => true, fun _ => true⟩
    [1, 2, 3, 4] 4 3 3 2).1
